import Mathlib

/-!
Verification of the delegation/orchestration core of the `storo/lattice`
agent-mesh library: the execution-context payload (`pkg/core/context.go`),
the cycle/hop guard (`pkg/mesh/cycle.go`), the selection policies
(`RoundRobinBalancer`, `RandomBalancer`, `FirstBalancer`), the local
registry (`pkg/registry/local.go`) and the delegation-tool injector
(`pkg/mesh/injector.go`).

Modelling conventions:
* A Go `context.Context` is observed by the core only through the
  call-chain and hop-count payload, so it is modelled as a record of
  those two fields.  `context.WithValue` shadows the previous value for
  a key, hence extending the context is a functional record update.
* Go `uint64` arithmetic is modelled on `Nat` with explicit reduction
  modulo `2^64` (`uint64Mod`).
* The Go `core.Agent` interface is observed by the registry, the
  balancers and the injector only through `ID()`, `Provides()` and
  `Needs()`, so an agent is modelled as a record of those three fields.
* Go slice indexing that can go out of range (only the random balancer's
  `agents[b.randFunc(len(agents))]`) is modelled by `sliceIndex`, whose
  `none` result stands for the runtime panic.
* Iteration over a Go `map` (`for _, agent := range r.agents`) yields the
  stored values in an order the Go runtime does not specify (and in fact
  randomizes); a registry read is therefore parameterised by the list of
  registered agents in the order the iteration yields them, and any
  permutation of the registered agents is an admissible order.
-/

/-! ## Execution context (`pkg/core/context.go`) -/

/-- The context payload read and written by `pkg/core/context.go`:
the call chain (`lattice.call_chain`) and the hop count
(`lattice.hop_count`).  `context.Background()` carries neither value, so
the accessors default to `[]` and `0`; the hop count is only ever read
through that default and incremented, hence `Nat`. -/
structure Ctx where
  callChain : List String
  hopCount : Nat
deriving DecidableEq, Repr

/-- `context.Background()`: no values set, so `CallChain` reads `nil`
and `HopCount` reads `0`. -/
def emptyCtx : Ctx := ⟨[], 0⟩

/-- `core.CallChain`: the chain of agent IDs called so far. -/
def CallChain (ctx : Ctx) : List String := ctx.callChain

/-- `core.WithCallChain`: allocates a fresh slice of length `len+1`,
copies the old chain and puts `agentID` last, i.e. appends. -/
def WithCallChain (ctx : Ctx) (agentID : String) : Ctx :=
  { ctx with callChain := ctx.callChain ++ [agentID] }

/-- `core.InCallChain`: linear scan of the chain comparing with `==`. -/
def InCallChain (ctx : Ctx) (agentID : String) : Bool :=
  (CallChain ctx).any (fun id => id == agentID)

/-- `core.HopCount`: the recorded hop count, defaulting to `0`. -/
def HopCount (ctx : Ctx) : Nat := ctx.hopCount

/-- `core.WithHopCount`: stores `HopCount(ctx) + 1`. -/
def WithHopCount (ctx : Ctx) : Ctx :=
  { ctx with hopCount := ctx.hopCount + 1 }

/-! ## Cycle/hop guard (`pkg/mesh/cycle.go`) -/

/-- `mesh.DefaultMaxHops` (a Go `int`, hence `Int`). -/
def DefaultMaxHops : Int := 10

/-- `mesh.CycleDetector`: a single configured `maxHops` (Go `int`). -/
structure CycleDetector where
  maxHops : Int
deriving DecidableEq, Repr

/-- `mesh.NewCycleDetector`: `if maxHops <= 0 { maxHops = DefaultMaxHops }`. -/
def NewCycleDetector (maxHops : Int) : CycleDetector :=
  if maxHops ≤ 0 then ⟨DefaultMaxHops⟩ else ⟨maxHops⟩

/-- The two error sentinels of `pkg/mesh/cycle.go`:
`ErrCycleDetected` and `ErrMaxHopsExceeded`. -/
inductive MeshError where
  | cycleDetected
  | maxHopsExceeded
deriving DecidableEq, Repr

/-- `CycleDetector.Check`: cycle test first, then the hop budget;
`none` models the `nil` (success) return. -/
def CycleDetector.Check (cd : CycleDetector) (ctx : Ctx) (agentID : String) :
    Option MeshError :=
  if InCallChain ctx agentID then some .cycleDetected
  else if (HopCount ctx : Int) ≥ cd.maxHops then some .maxHopsExceeded
  else none

/-- `CycleDetector.PrepareContext`: append to the chain, then bump the
hop count. -/
def CycleDetector.PrepareContext (cd : CycleDetector) (ctx : Ctx)
    (agentID : String) : Ctx :=
  WithHopCount (WithCallChain ctx agentID)

/-- The contexts reachable from `context.Background()` by repeatedly
picking a candidate ID that passes `Check` and extending with
`PrepareContext`, as claimed for the guard's operating protocol. -/
inductive ReachableCtx (cd : CycleDetector) : Ctx → Prop where
  | base : ReachableCtx cd emptyCtx
  | step {ctx : Ctx} (agentID : String) : ReachableCtx cd ctx →
      cd.Check ctx agentID = none → ReachableCtx cd (cd.PrepareContext ctx agentID)

/-! ## Agents, registry, injector -/

/-- `core.Capability` is a string type. -/
abbrev Capability := String

/-- A `core.Agent` as observed by the delegation core: its unique ID and
its declared `Provides` and `Needs` capability sequences. -/
structure Agent where
  id : String
  provides : List Capability
  needs : List Capability
deriving DecidableEq, Repr

/-- `registry.Local.FindByCapability`, applied to the registered agents
in the order a `range` over the backing map yields them: keep an agent
as soon as one of its `Provides` entries equals `cap` (the inner loop
with `break`). -/
def FindByCapability (iterOrder : List Agent) (cap : Capability) : List Agent :=
  iterOrder.filter (fun a => a.provides.any (fun provided => provided == cap))

/-- `mesh.AgentTool`: the delegation tool built by the injector.  The
balancer and guard references it also carries are the injector's own and
play no role in the claims about tool identity. -/
structure AgentTool where
  capability : Capability
  providers : List Agent
deriving DecidableEq, Repr

/-- `AgentTool.Name`: `fmt.Sprintf("delegate_to_%s", t.capability)`. -/
def AgentTool.Name (t : AgentTool) : String := "delegate_to_" ++ t.capability

/-- `mesh.Injector.InjectTools`: for each entry of `agent.Needs()` in
declared order, query `FindByCapability`; skip the need when no provider
exists, otherwise append one tool bound to the need and its provider
list.  The local registry never returns an error, so neither does this
loop. -/
def InjectTools (reg : List Agent) (a : Agent) : List AgentTool :=
  a.needs.foldl
    (fun tools need =>
      let providers := FindByCapability reg need
      if providers.length = 0 then tools
      else tools ++ [{ capability := need, providers := providers }])
    []

/-! ## Selection policies (the `Balancer` implementations) -/

/-- `2^64`: the modulus of Go `uint64` arithmetic. -/
def uint64Mod : Nat := 18446744073709551616

/-- `mesh.RoundRobinBalancer`: a shared `uint64` counter. -/
structure RoundRobinBalancer where
  counter : Nat
deriving DecidableEq, Repr

/-- `mesh.NewRoundRobinBalancer`: counter starts at zero. -/
def NewRoundRobinBalancer : RoundRobinBalancer := ⟨0⟩

/-- `RoundRobinBalancer.Select`: return `nil` on an empty list before
touching the counter; otherwise `idx := atomic.AddUint64(&counter,1) - 1`
(both operations wrap modulo `2^64`) and the result is
`agents[idx % len(agents)]`, together with the updated counter. -/
def RoundRobinBalancer.Select (b : RoundRobinBalancer) (agents : List Agent) :
    Option Agent × RoundRobinBalancer :=
  if agents.length = 0 then (none, b)
  else
    let newCounter := (b.counter + 1) % uint64Mod
    let idx := (newCounter + (uint64Mod - 1)) % uint64Mod
    (agents[idx % agents.length]?, ⟨newCounter⟩)

/-- `b.Select` iterated `n` times on a fixed candidate list, threading
the counter state; the list of returned agents in order. -/
def rrRunN : RoundRobinBalancer → List Agent → Nat → List (Option Agent)
  | _, _, 0 => []
  | b, agents, n + 1 =>
    (b.Select agents).1 :: rrRunN (b.Select agents).2 agents n

/-- Go slice indexing `agents[i]` with a possibly out-of-range index:
`some` of the element when `0 ≤ i < len`, `none` models the runtime
panic. -/
def sliceIndex (agents : List Agent) (i : Int) : Option Agent :=
  if 0 ≤ i ∧ i < (agents.length : Int) then agents[i.toNat]? else none

/-- `mesh.RandomBalancer`: an injected randomness source
`randFunc func(n int) int`. -/
structure RandomBalancer where
  randFunc : Int → Int

/-- `RandomBalancer.Select`: `nil` on an empty list, otherwise
`agents[b.randFunc(len(agents))]`.  The outer `Option` models the panic
an out-of-range `randFunc` result would cause: `some none` is a `nil`
return, `some (some a)` a successful selection, `none` a panic. -/
def RandomBalancer.Select (b : RandomBalancer) (agents : List Agent) :
    Option (Option Agent) :=
  if agents.length = 0 then some none
  else (sliceIndex agents (b.randFunc agents.length)).map some

/-- `mesh.FirstBalancer.Select`: `nil` on an empty list, otherwise the
first agent. -/
def FirstBalancer.Select (agents : List Agent) : Option Agent :=
  if agents.length = 0 then none else agents[0]?

/-! ## Concrete data used by counterexamples and witnesses -/

/-- A registered agent providing the `research` capability. -/
def pAgent : Agent := ⟨"p1", ["research"], []⟩

/-- A second registered agent providing the same capability. -/
def qAgent : Agent := ⟨"p2", ["research"], []⟩

/-- An agent declaring the same need twice. -/
def wAgent : Agent := ⟨"w1", [], ["research", "research"]⟩

/-- Three distinct agents for the round-robin counterexample. -/
def cexAgents : List Agent := [⟨"a0", [], []⟩, ⟨"a1", [], []⟩, ⟨"a2", [], []⟩]

/-! ## Helper lemmas -/

theorem inCallChain_iff (ctx : Ctx) (agentID : String) :
    InCallChain ctx agentID = true ↔ agentID ∈ ctx.callChain := by
  unfold InCallChain CallChain
  rw [List.any_eq_true]
  constructor
  · rintro ⟨x, hx, hbeq⟩
    rw [beq_iff_eq] at hbeq
    exact hbeq ▸ hx
  · intro h
    exact ⟨agentID, h, by simp⟩

theorem newCycleDetector_pos (m : Int) : 0 < (NewCycleDetector m).maxHops := by
  unfold NewCycleDetector DefaultMaxHops
  split <;> simp <;> omega

theorem check_eq_none_iff (cd : CycleDetector) (ctx : Ctx) (agentID : String) :
    cd.Check ctx agentID = none ↔
      agentID ∉ ctx.callChain ∧ (ctx.hopCount : Int) < cd.maxHops := by
  unfold CycleDetector.Check
  by_cases hmem : agentID ∈ ctx.callChain
  · have : InCallChain ctx agentID = true := (inCallChain_iff ctx agentID).mpr hmem
    simp [this, hmem]
  · have : InCallChain ctx agentID = false := by
      cases h : InCallChain ctx agentID
      · rfl
      · exact absurd ((inCallChain_iff ctx agentID).mp h) hmem
    simp only [this, Bool.false_eq_true, if_false, HopCount]
    constructor
    · intro h
      refine ⟨hmem, ?_⟩
      by_contra hlt
      simp [le_of_not_lt hlt] at h
    · intro h
      simp [not_le.mpr h.2]

/-! ## C1: invariant of reachable contexts -/

/-- Claim C1: every execution context reachable from the empty context by
repeatedly choosing a candidate agent ID for which the guard's `Check`
succeeds and then extending with `PrepareContext` has a call chain with
pairwise-distinct entries, a hop count equal to the chain's length, and a
hop count at most the configured `maxHops`. -/
theorem reachable_ctx_invariant (m : Int) (ctx : Ctx)
    (h : ReachableCtx (NewCycleDetector m) ctx) :
    ctx.callChain.Nodup ∧ ctx.hopCount = ctx.callChain.length ∧
      (ctx.hopCount : Int) ≤ (NewCycleDetector m).maxHops := by
  induction h with
  | base =>
    refine ⟨List.nodup_nil, rfl, ?_⟩
    have h10 := newCycleDetector_pos m
    show ((0 : Nat) : Int) ≤ _
    omega
  | step agentID hreach hchk ih =>
    obtain ⟨hnd, hlen, _⟩ := ih
    obtain ⟨hmem, hlt⟩ := (check_eq_none_iff _ _ _).mp hchk
    refine ⟨?_, ?_, ?_⟩
    · simpa [CycleDetector.PrepareContext, WithCallChain, WithHopCount,
        List.nodup_append] using ⟨hnd, hmem⟩
    · simp [CycleDetector.PrepareContext, WithCallChain, WithHopCount, hlen]
    · simp only [CycleDetector.PrepareContext, WithCallChain, WithHopCount]
      push_cast
      omega

/-- Witness for C1 at a concrete reachable context: one `Check`-guarded
`PrepareContext` step from the empty context. -/
theorem reachable_ctx_invariant_witness :
    ((NewCycleDetector 3).PrepareContext emptyCtx "A").callChain.Nodup ∧
      ((NewCycleDetector 3).PrepareContext emptyCtx "A").hopCount =
        ((NewCycleDetector 3).PrepareContext emptyCtx "A").callChain.length ∧
      ((((NewCycleDetector 3).PrepareContext emptyCtx "A").hopCount : Int)) ≤
        (NewCycleDetector 3).maxHops :=
  reachable_ctx_invariant 3 _
    (ReachableCtx.step "A" ReachableCtx.base (by decide))

/-! ## C2: any chain member is rejected as a cycle -/

/-- Claim C2: whenever the candidate ID appears anywhere in the context's
call chain — first, middle or last position, covering both direct and
indirect re-entrancy — `Check` returns the cycle error. -/
theorem check_cycle_of_mem (cd : CycleDetector) (ctx : Ctx) (X : String)
    (h : X ∈ CallChain ctx) :
    cd.Check ctx X = some MeshError.cycleDetected := by
  unfold CycleDetector.Check
  simp [(inCallChain_iff ctx X).mpr h]

/-- Witness for C2: indirect re-entrancy — `"A"` sits at the head of the
chain `["A", "B", "C"]`, not in the last position, and is rejected. -/
theorem check_cycle_of_mem_witness :
    (NewCycleDetector 10).Check ⟨["A", "B", "C"], 3⟩ "A" =
      some MeshError.cycleDetected :=
  check_cycle_of_mem (NewCycleDetector 10) ⟨["A", "B", "C"], 3⟩ "A" (by decide)

/-! ## C3: exhausted hop budget -/

/-- Counterexample to C3 as stated: with `maxHops = 1`, the context
obtained by preparing `"A"` has hop count `1 ≥ maxHops`, yet
`Check(ctx, "A")` returns the cycle error, not the hop-budget error —
the cycle test runs first, so the hop-budget error is not returned for
*every* candidate ID. -/
theorem check_hop_budget_counterexample :
    (HopCount ((NewCycleDetector 1).PrepareContext emptyCtx "A") : Int) ≥
        (NewCycleDetector 1).maxHops ∧
      (NewCycleDetector 1).Check ((NewCycleDetector 1).PrepareContext emptyCtx "A") "A" =
        some MeshError.cycleDetected ∧
      (NewCycleDetector 1).Check ((NewCycleDetector 1).PrepareContext emptyCtx "A") "A" ≠
        some MeshError.maxHopsExceeded := by
  refine ⟨by decide, by decide, by decide⟩

/-- Claim C3 (amended): for every context whose hop count is at least the
configured `maxHops`, `Check(ctx, anyID)` returns the hop-budget error
for every candidate ID `anyID` that does not appear in the call chain —
in particular for every ID that was never visited. -/
theorem check_hop_budget_of_fresh (cd : CycleDetector) (ctx : Ctx) (anyID : String)
    (hhop : (HopCount ctx : Int) ≥ cd.maxHops) (hmem : anyID ∉ CallChain ctx) :
    cd.Check ctx anyID = some MeshError.maxHopsExceeded := by
  unfold CycleDetector.Check
  have : InCallChain ctx anyID = false := by
    cases h : InCallChain ctx anyID
    · rfl
    · exact absurd ((inCallChain_iff ctx anyID).mp h) hmem
  simp [this, hhop]

/-- Witness for C3 (amended): with `maxHops = 3` and the chain
`["A", "B", "C"]` at hop count 3, the unvisited ID `"D"` is rejected
with the hop-budget error. -/
theorem check_hop_budget_of_fresh_witness :
    (NewCycleDetector 3).Check ⟨["A", "B", "C"], 3⟩ "D" =
      some MeshError.maxHopsExceeded :=
  check_hop_budget_of_fresh (NewCycleDetector 3) ⟨["A", "B", "C"], 3⟩ "D"
    (by decide) (by decide)

/-! ## C4: PrepareContext is copy-on-extend -/

/-- Claim C4: `PrepareContext` is a pure copy-on-extend operation — for a
context `c` and IDs `A` and `B`, each of `PrepareContext(c, A)` and
`PrepareContext(c, B)` is a new context whose chain is `c`'s chain with
the respective ID appended and whose hop count is `c`'s plus one; both
extensions are expressed in terms of `c` alone, so they are independent
of each other and `c` itself is unchanged (in the Go code,
`WithCallChain` copies the chain into a freshly allocated slice and
`context.WithValue` wraps rather than mutates). -/
theorem prepareContext_copy_on_extend (cd : CycleDetector) (c : Ctx) (A B : String) :
    (cd.PrepareContext c A).callChain = c.callChain ++ [A] ∧
      (cd.PrepareContext c A).hopCount = c.hopCount + 1 ∧
      (cd.PrepareContext c B).callChain = c.callChain ++ [B] ∧
      (cd.PrepareContext c B).hopCount = c.hopCount + 1 := by
  refine ⟨rfl, rfl, rfl, rfl⟩

/-! ## C9: maxHops clamp -/

/-- Claim C9: `NewCycleDetector` falls back to the default of 10 on any
non-positive `maxHops` (a clamp, not an error), and uses any positive
configured value as given. -/
theorem newCycleDetector_clamp (m : Int) :
    (m ≤ 0 → (NewCycleDetector m).maxHops = DefaultMaxHops) ∧
      DefaultMaxHops = 10 ∧
      (0 < m → (NewCycleDetector m).maxHops = m) := by
  refine ⟨fun h => ?_, rfl, fun h => ?_⟩
  · simp [NewCycleDetector, h]
  · simp [NewCycleDetector, not_le.mpr h]

/-- Witness for C9 at the concrete inputs `-5` (clamped to 10) and `7`
(used as given). -/
theorem newCycleDetector_clamp_witness :
    (NewCycleDetector (-5)).maxHops = 10 ∧ (NewCycleDetector 7).maxHops = 7 :=
  ⟨((newCycleDetector_clamp (-5)).1 (by norm_num)).trans
      (newCycleDetector_clamp (-5)).2.1,
    (newCycleDetector_clamp 7).2.2 (by norm_num)⟩

/-! ## C5: one delegation tool per satisfiable need occurrence -/

theorem injectTools_go (reg : List Agent) (needs : List Capability)
    (acc : List AgentTool) :
    needs.foldl
        (fun tools need =>
          let providers := FindByCapability reg need
          if providers.length = 0 then tools
          else tools ++ [{ capability := need, providers := providers }])
        acc
      = acc ++ (needs.filter (fun c => !(FindByCapability reg c).isEmpty)).map
          (fun c => { capability := c, providers := FindByCapability reg c }) := by
  induction needs generalizing acc with
  | nil => simp
  | cons need rest ih =>
    rw [List.foldl_cons, List.filter_cons, ih]
    cases hfind : FindByCapability reg need with
    | nil => simp [hfind]
    | cons x xs => simp [hfind]

/-- Counterexample to C5 as stated: the agent `wAgent` declares the need
`"research"` twice and exactly one distinct capability in its needs has a
registered provider, yet `InjectTools` produces two tools (one per
occurrence), not one per distinct capability. -/
theorem injectTools_duplicate_counterexample :
    wAgent.needs = ["research", "research"] ∧
      FindByCapability [pAgent] "research" = [pAgent] ∧
      (InjectTools [pAgent] wAgent).length = 2 := by
  refine ⟨rfl, by decide, by decide⟩

/-- Claim C5 (amended): `InjectTools` produces exactly one delegation
tool per occurrence of a capability in the agent's declared `Needs` that
has at least one registered provider — duplicate occurrences yield one
tool each — each tool bound to that capability and its provider list and
named `"delegate_to_" ++ capability`; a need with zero providers is
silently skipped, producing no tool and no error. -/
theorem injectTools_per_occurrence (reg : List Agent) (a : Agent) :
    InjectTools reg a
        = (a.needs.filter (fun c => !(FindByCapability reg c).isEmpty)).map
            (fun c => { capability := c, providers := FindByCapability reg c }) ∧
      ∀ t ∈ InjectTools reg a, t.Name = "delegate_to_" ++ t.capability := by
  refine ⟨?_, fun t _ => rfl⟩
  unfold InjectTools
  simpa using injectTools_go reg a.needs []

/-- Witness for C5 (amended) at the concrete registry `[pAgent]` and
agent `wAgent`, naming a concrete member of the produced tool list. -/
theorem injectTools_per_occurrence_witness :
    AgentTool.Name { capability := "research", providers := [pAgent] } =
      "delegate_to_" ++ "research" :=
  (injectTools_per_occurrence [pAgent] wAgent).2
    { capability := "research", providers := [pAgent] } (by decide)

/-! ## C7: FindByCapability — result set and result order -/

/-- Counterexample to C7 as stated: the same registry content (two agents
providing `"research"`) under two admissible map-iteration orders — Go
does not fix, and in fact randomizes, the order in which `range` walks a
map — yields differently ordered results, so two calls with no
intervening writes need not return the same order. -/
theorem findByCapability_order_counterexample :
    List.Perm [pAgent, qAgent] [qAgent, pAgent] ∧
      FindByCapability [pAgent, qAgent] "research" ≠
        FindByCapability [qAgent, pAgent] "research" := by
  refine ⟨by decide, by decide⟩

/-- Claim C7 (amended): for any iteration order over the registered
agents, `FindByCapability` returns exactly the registered agents whose
`Provides` contains the capability under exact string equality, in a
sublist of the iteration order; the order is only as stable as the map
iteration order, which the Go runtime does not keep fixed. -/
theorem findByCapability_exact_set (iterOrder : List Agent) (cap : Capability)
    (a : Agent) :
    (a ∈ FindByCapability iterOrder cap ↔ a ∈ iterOrder ∧ cap ∈ a.provides) ∧
      (FindByCapability iterOrder cap).Sublist iterOrder := by
  constructor
  · unfold FindByCapability
    rw [List.mem_filter]
    constructor
    · rintro ⟨h1, h2⟩
      rw [List.any_eq_true] at h2
      obtain ⟨x, hx, hbeq⟩ := h2
      rw [beq_iff_eq] at hbeq
      exact ⟨h1, hbeq ▸ hx⟩
    · rintro ⟨h1, h2⟩
      exact ⟨h1, List.any_eq_true.mpr ⟨cap, h2, by simp⟩⟩
  · exact List.filter_sublist iterOrder

/-! ## C8: empty candidate list yields nil for every policy -/

/-- Claim C8: for every selection-policy variant — round-robin, random
and first — `Select` on a nil/empty candidate list (a Go nil slice and an
empty slice both have length zero) returns `nil`, never an error and
never a panic: each implementation returns early before touching the
counter, the randomness source or any slice index. -/
theorem select_empty_all (b : RoundRobinBalancer) (rb : RandomBalancer) :
    b.Select [] = (none, b) ∧
      rb.Select [] = some none ∧
      FirstBalancer.Select [] = none := by
  refine ⟨rfl, rfl, rfl⟩

/-! ## C10: non-empty candidate list yields a member, never nil -/

theorem getElem?_mem_of_lt (agents : List Agent) (i : Nat)
    (h : i < agents.length) : ∃ a ∈ agents, agents[i]? = some a := by
  refine ⟨agents.get ⟨i, h⟩, List.get_mem agents i h, ?_⟩
  rw [List.getElem?_eq_getElem h]
  simp

/-- Claim C10: on every non-empty candidate list, every policy variant's
`Select` returns one of the candidates and never `nil` — unconditionally
for round-robin and first, and for random under the precondition that the
injected randomness source returns an index in `[0, n)` for list length
`n`. -/
theorem select_nonempty_all (b : RoundRobinBalancer) (rb : RandomBalancer)
    (agents : List Agent) (hne : agents ≠ [])
    (hrand : 0 ≤ rb.randFunc agents.length ∧
      rb.randFunc agents.length < (agents.length : Int)) :
    (∃ a ∈ agents, (b.Select agents).1 = some a) ∧
      (∃ a ∈ agents, rb.Select agents = some (some a)) ∧
      (∃ a ∈ agents, FirstBalancer.Select agents = some a) := by
  have hlen : ¬ agents.length = 0 := by
    simpa [List.length_eq_zero] using hne
  have hpos : 0 < agents.length := Nat.pos_of_ne_zero hlen
  refine ⟨?_, ?_, ?_⟩
  · obtain ⟨a, ha, hget⟩ := getElem?_mem_of_lt agents
      ((((b.counter + 1) % uint64Mod + (uint64Mod - 1)) % uint64Mod) % agents.length)
      (Nat.mod_lt _ hpos)
    refine ⟨a, ha, ?_⟩
    have hsel : b.Select agents =
        (agents[(((b.counter + 1) % uint64Mod + (uint64Mod - 1)) % uint64Mod)
            % agents.length]?,
          RoundRobinBalancer.mk ((b.counter + 1) % uint64Mod)) := by
      unfold RoundRobinBalancer.Select
      rw [if_neg hlen]
    rw [hsel]
    exact hget
  · have htoNat : (rb.randFunc agents.length).toNat < agents.length := by
      omega
    obtain ⟨a, ha, hget⟩ := getElem?_mem_of_lt agents
      (rb.randFunc agents.length).toNat htoNat
    refine ⟨a, ha, ?_⟩
    have hsel : rb.Select agents =
        (sliceIndex agents (rb.randFunc agents.length)).map some := by
      unfold RandomBalancer.Select
      rw [if_neg hlen]
    have hrange : sliceIndex agents (rb.randFunc agents.length) =
        agents[(rb.randFunc agents.length).toNat]? := by
      unfold sliceIndex
      rw [if_pos hrand]
    rw [hsel, hrange, hget]
    rfl
  · obtain ⟨a, ha, hget⟩ := getElem?_mem_of_lt agents 0 hpos
    refine ⟨a, ha, ?_⟩
    have hsel : FirstBalancer.Select agents = agents[0]? := by
      unfold FirstBalancer.Select
      rw [if_neg hlen]
    rw [hsel]
    exact hget

/-- Witness for C10 at the singleton candidate list `[pAgent]`, a fresh
round-robin balancer and a randomness source that always returns 0. -/
theorem select_nonempty_all_witness :
    (∃ a ∈ [pAgent], (NewRoundRobinBalancer.Select [pAgent]).1 = some a) ∧
      (∃ a ∈ [pAgent],
        (RandomBalancer.mk fun _ => 0).Select [pAgent] = some (some a)) ∧
      (∃ a ∈ [pAgent], FirstBalancer.Select [pAgent] = some a) :=
  select_nonempty_all NewRoundRobinBalancer (RandomBalancer.mk fun _ => 0)
    [pAgent] (by decide) (by decide)

/-! ## C6: round-robin fairness over N consecutive calls -/

theorem rrSelect_eq (b : RoundRobinBalancer) (agents : List Agent)
    (hne : ¬ agents.length = 0) (hc : b.counter < uint64Mod) :
    b.Select agents = (agents[b.counter % agents.length]?,
      RoundRobinBalancer.mk ((b.counter + 1) % uint64Mod)) := by
  unfold RoundRobinBalancer.Select
  rw [if_neg hne]
  have hidx : ((b.counter + 1) % uint64Mod + (uint64Mod - 1)) % uint64Mod
      = b.counter := by
    unfold uint64Mod at *
    omega
  simp only [hidx]

theorem rrRunN_eq (agents : List Agent) (hne : ¬ agents.length = 0)
    (n : Nat) : ∀ c : Nat, c + n ≤ uint64Mod →
      rrRunN (RoundRobinBalancer.mk c) agents n
        = (List.range n).map (fun k => agents[(c + k) % agents.length]?) := by
  induction n with
  | zero =>
    intro c h
    simp [rrRunN]
  | succ m ih =>
    intro c h
    have hc : c < uint64Mod := by omega
    show ((RoundRobinBalancer.mk c).Select agents).1 ::
        rrRunN ((RoundRobinBalancer.mk c).Select agents).2 agents m
      = (List.range (m + 1)).map (fun k => agents[(c + k) % agents.length]?)
    rw [rrSelect_eq (RoundRobinBalancer.mk c) agents hne hc]
    rw [List.range_succ_eq_map, List.map_cons, List.map_map]
    congr 1
    cases m with
    | zero => simp [rrRunN]
    | succ p =>
      have h1 : (c + 1) % uint64Mod = c + 1 := Nat.mod_eq_of_lt (by omega)
      rw [h1, ih (c + 1) (by omega)]
      apply List.map_congr_left
      intro k _
      have h2 : c + 1 + k = c + Nat.succ k := by omega
      simp [Function.comp, h2]

theorem rrIndex_injective (c N : Nat) (hpos : 0 < N) :
    Function.Injective
      (fun k : Fin N => (⟨(c + k.val) % N, Nat.mod_lt _ hpos⟩ : Fin N)) := by
  intro k1 k2 hk
  have h1 : (c + k1.val) % N = (c + k2.val) % N := by
    simpa using congrArg Fin.val hk
  have h2 : k1.val % N = k2.val % N := Nat.ModEq.add_left_cancel' c h1
  apply Fin.ext
  rwa [Nat.mod_eq_of_lt k1.isLt, Nat.mod_eq_of_lt k2.isLt] at h2

/-- Counterexample to C6 as stated: the `uint64` counter wraps around.
Starting the sequence at counter value `2^64 - 1` on the three-element
candidate list `cexAgents` (note `2^64 ≡ 1 [MOD 3]`), three consecutive
`Select` calls return the first agent twice and the third agent never,
so over a full pass of `N` consecutive calls the balancer does not
return each of the `N` candidates exactly once for every starting
counter value. -/
theorem roundRobin_wrap_counterexample :
    rrRunN (RoundRobinBalancer.mk (uint64Mod - 1)) cexAgents 3
        = [some (Agent.mk "a0" [] []), some (Agent.mk "a0" [] []),
            some (Agent.mk "a1" [] [])] ∧
      some (Agent.mk "a2" [] []) ∉
        rrRunN (RoundRobinBalancer.mk (uint64Mod - 1)) cexAgents 3 := by
  refine ⟨by decide, by decide⟩

/-- Claim C6 (amended): round-robin `Select` over a fixed candidate list
of size `N`, called `N` consecutive times with no other concurrent calls
on the same balancer, returns each of the `N` candidates exactly once
(the result list is a permutation of the candidate list), in an order
determined by the counter value at the start of the sequence, provided
the shared `uint64` counter does not wrap around `2^64` during the
sequence. -/
theorem roundRobin_each_once (b : RoundRobinBalancer) (agents : List Agent)
    (hne : agents ≠ []) (hwrap : b.counter + agents.length ≤ uint64Mod) :
    List.Perm (rrRunN b agents agents.length) (agents.map some) := by
  obtain ⟨c⟩ := b
  have hlen : ¬ agents.length = 0 := by
    simpa [List.length_eq_zero] using hne
  have hpos : 0 < agents.length := Nat.pos_of_ne_zero hlen
  rw [rrRunN_eq agents hlen agents.length c hwrap]
  rw [← List.map_coe_finRange, List.map_map, ← List.ofFn_eq_map]
  have hbij :=
    Finite.injective_iff_bijective.mp (rrIndex_injective c agents.length hpos)
  have hfun : ((fun k => agents[(c + k) % agents.length]?) ∘ Fin.val)
      = (some ∘ agents.get) ∘ (Equiv.ofBijective _ hbij) := by
    funext i
    simp only [Function.comp, Equiv.ofBijective_apply]
    rw [List.getElem?_eq_getElem (Nat.mod_lt _ hpos)]
    rfl
  rw [hfun]
  refine (Equiv.Perm.ofFn_comp_perm (Equiv.ofBijective _ hbij)
    (some ∘ agents.get)).trans ?_
  rw [show List.ofFn (some ∘ agents.get) = (List.ofFn agents.get).map some from
    (List.map_ofFn _ _).symm]
  rw [List.ofFn_get]

/-- Witness for C6 (amended): a fresh balancer over two candidates
returns both of them, one each, across two consecutive calls. -/
theorem roundRobin_each_once_witness :
    List.Perm (rrRunN NewRoundRobinBalancer [pAgent, qAgent]
        [pAgent, qAgent].length)
      ([pAgent, qAgent].map some) :=
  roundRobin_each_once NewRoundRobinBalancer [pAgent, qAgent]
    (by decide) (by decide)
